import Mathlib

/-!
Shallow embedding of the comment-stripping core of `decomment.js`
(`src/index.js`): the dialect-resolution loop, the comment-range
normalisation, and the span eraser `removeRanges`, together with proofs of
the specified properties.

Source text is modelled as `List Char` (one entry per JS string index).
The external `@babel/parser` library is modelled as an abstract function
`ParseFn` from source text and parse options to either a syntax tree
(of which only the `comments` field matters to this program) or an error
carrying a message, exactly the shape `stripCommentsFromCode` consumes.
-/

deriving instance DecidableEq for Except

namespace Decomment

/-- A half-open comment range `[start, stop)`.  The JS object is
`{ start, end }`; the second field is renamed `stop` because `end` is a
Lean keyword. -/
structure Range where
  start : Int
  stop : Int
deriving DecidableEq, Repr

/-- A raw comment node as delivered by the parser: its `start`/`end`
fields are arbitrary JS values, modelled as `Option Int` (`some` when
`typeof x === 'number'`, `none` otherwise), since
`stripCommentsFromCode` defensively checks `typeof`. -/
structure RawComment where
  start : Option Int
  stop : Option Int
deriving DecidableEq, Repr

/-- The parse result: only the `comments` field is consumed by this
program.  `ast.comments` is guarded by `Array.isArray`, so it is
modelled as `Option (List RawComment)` (`none` = not an array). -/
structure Ast where
  comments : Option (List RawComment)
deriving DecidableEq, Repr

/-- A parser exception; only its `message` is consumed. -/
structure ParseErr where
  message : String
deriving DecidableEq, Repr

/-- A babel parser plugin entry: either a plain name string or the
`['decorators', { decoratorsBeforeExport: true }]` tuple form. -/
inductive Plugin where
  | plain (name : String)
  | withOptions (name : String) (decoratorsBeforeExport : Bool)
deriving DecidableEq, Repr

/-- The options record passed to `parser.parse` in
`stripCommentsFromCode`. -/
structure ParseOptions where
  sourceType : String
  allowAwaitOutsideFunction : Bool
  allowReturnOutsideFunction : Bool
  allowImportExportEverywhere : Bool
  ranges : Bool
  plugins : List Plugin

/-- The abstract external parser (`parser.parse` of `@babel/parser`). -/
def ParseFn : Type :=
  List Char → ParseOptions → Except ParseErr Ast

/-- `COMMON_PLUGINS` from `src/index.js`. -/
def COMMON_PLUGINS : List Plugin :=
  [.plain "classProperties",
   .plain "classPrivateProperties",
   .plain "classPrivateMethods",
   .plain "dynamicImport",
   .plain "optionalCatchBinding",
   .plain "optionalChaining",
   .plain "nullishCoalescingOperator",
   .plain "objectRestSpread",
   .plain "topLevelAwait",
   .plain "throwExpressions",
   .plain "numericSeparator",
   .plain "importMeta",
   .plain "exportDefaultFrom",
   .plain "doExpressions",
   .plain "functionBind"]

/-- `LANGUAGE_PLUGIN_SETS` from `src/index.js`. -/
def LANGUAGE_PLUGIN_SETS : List (List Plugin) :=
  [[.plain "jsx", .plain "typescript"],
   [.plain "jsx", .plain "flow", .plain "flowComments"],
   [.plain "jsx"],
   []]

/-- `DECORATOR_PLUGINS` from `src/index.js`. -/
def DECORATOR_PLUGINS : List Plugin :=
  [.withOptions "decorators" true,
   .plain "decorators-legacy"]

/-- `buildDefaultPluginSets()`: outer loop over the decorator plugins,
inner loop over the language plugin sets, pushing
`[...languagePlugins, decoratorPlugin, ...COMMON_PLUGINS]`, then one
final `[...COMMON_PLUGINS]`. -/
def buildDefaultPluginSets : List (List Plugin) :=
  (DECORATOR_PLUGINS.flatMap fun decoratorPlugin =>
    LANGUAGE_PLUGIN_SETS.map fun languagePlugins =>
      languagePlugins ++ [decoratorPlugin] ++ COMMON_PLUGINS)
  ++ [COMMON_PLUGINS]

/-- `DEFAULT_PLUGIN_SETS = buildDefaultPluginSets()`. -/
def DEFAULT_PLUGIN_SETS : List (List Plugin) :=
  buildDefaultPluginSets

/-- JS index normalisation used by `String.prototype.slice`: a negative
index counts from the end, and everything clamps into `[0, len]`. -/
def jsIndex (len i : Int) : Int :=
  if i < 0 then max (len + i) 0 else min i len

/-- `source.slice(a, b)` on the `List Char` model of a JS string. -/
def jsSlice (s : List Char) (a b : Int) : List Char :=
  (s.drop (jsIndex s.length a).toNat).take
    ((jsIndex s.length b) - (jsIndex s.length a)).toNat

/-- `source.slice(a)` (one-argument slice: to the end of the string). -/
def jsSliceFrom (s : List Char) (a : Int) : List Char :=
  s.drop (jsIndex s.length a).toNat

/-- Result of `removeRanges`: `{ output, removed }`. -/
structure EraseResult where
  output : List Char
  removed : Int
deriving DecidableEq, Repr

/-- The loop body of `removeRanges`, with the loop state (`cursor`,
`removed`, `output`) threaded explicitly: for each range in order, skip
it when `range.start < cursor`, otherwise append
`source.slice(cursor, range.start)`, add `range.end - range.start` to
`removed` and move the cursor to `range.end`; after the loop append
`source.slice(cursor)`. -/
def removeRangesLoop (source : List Char) :
    List Range → Int → Int → List Char → List Char × Int
  | [], cursor, removed, output =>
      (output ++ jsSliceFrom source cursor, removed)
  | r :: rest, cursor, removed, output =>
      if r.start < cursor then
        removeRangesLoop source rest cursor removed output
      else
        removeRangesLoop source rest r.stop
          (removed + (r.stop - r.start))
          (output ++ jsSlice source cursor r.start)

/-- `removeRanges(source, ranges)` from `src/index.js`. -/
def removeRanges (source : List Char) (ranges : List Range) : EraseResult :=
  let p := removeRangesLoop source ranges 0 0 []
  ⟨p.1, p.2⟩

/-- One step of the range normalisation in `stripCommentsFromCode`: the
`.map(({ start, end }) => ({ start, end }))` projection followed by the
`.filter(...)` predicate `typeof start === 'number' &&
typeof end === 'number' && start < end`, fused into one `Option`. -/
def toCheckedRange (c : RawComment) : Option Range :=
  match c.start, c.stop with
  | some s, some e => if s < e then some ⟨s, e⟩ else none
  | _, _ => none

/-- The normalised range list of `stripCommentsFromCode`: project,
filter, then `.sort((a, b) => a.start - b.start)` (a stable ascending
sort by `start`, modelled by `List.mergeSort`). -/
def commentRanges (comments : List RawComment) : List Range :=
  (comments.filterMap toCheckedRange).mergeSort fun a b => a.start ≤ b.start

/-- The fixed options record `stripCommentsFromCode` hands to
`parser.parse` for one attempt. -/
def mkParseOptions (plugins : List Plugin) : ParseOptions :=
  { sourceType := "unambiguous"
    allowAwaitOutsideFunction := true
    allowReturnOutsideFunction := true
    allowImportExportEverywhere := true
    ranges := true
    plugins := plugins }

/-- The dialect-resolution loop of `stripCommentsFromCode`: try each
plugin set in order, breaking on the first success; on failure remember
the error (`lastError`) and continue.  The accumulator is `none` while
no attempt has failed yet (JS `lastError` still `undefined`); on
exhaustion the loop's caller sees `.error lastError`. -/
def attemptParse (parse : ParseFn) (code : List Char) :
    List (List Plugin) → Option String → Except (Option String) Ast
  | [], lastError => .error lastError
  | plugins :: rest, _lastError =>
      match parse code (mkParseOptions plugins) with
      | .ok ast => .ok ast
      | .error e => attemptParse parse code rest (some e.message)

/-- The message of the error thrown on exhaustion:
`Failed to parse ${filename}: ${lastError?.message ?? 'Unknown parser error'}`. -/
def failMessage (filename : String) (lastError : Option String) : String :=
  "Failed to parse " ++ filename ++ ": " ++
    (lastError.getD "Unknown parser error")

/-- The `StripResult` record returned by `stripCommentsFromCode`. -/
structure StripResult where
  code : List Char
  commentCount : Nat
  removedChars : Int
  removedRanges : List Range
deriving DecidableEq, Repr

/-- The two failure classes of `stripCommentsFromCode`: the immediate
`TypeError` for non-string input, and the parse-exhaustion error. -/
inductive StripError where
  | typeError (message : String)
  | parseFailure (message : String)
deriving DecidableEq, Repr

/-- A JS value passed as the `code` argument: either a string or
anything else (tagged only for distinctness). -/
inductive JSValue where
  | str (s : List Char)
  | nonString (tag : String)
deriving DecidableEq, Repr

/-- The `parserOptions` argument of `stripCommentsFromCode`: the
`filename` and `plugins` fields, each possibly absent. -/
structure StripOptions where
  filename : Option String
  plugins : Option (List Plugin)
deriving DecidableEq, Repr

/-- The plugin sets attempted:
`customPlugins ? [customPlugins] : DEFAULT_PLUGIN_SETS` (note a present
but empty plugin array is truthy in JS, hence still `[custom]`). -/
def stripPluginSets (opts : StripOptions) : List (List Plugin) :=
  match opts.plugins with
  | some custom => [custom]
  | none => DEFAULT_PLUGIN_SETS

/-- The post-parse half of `stripCommentsFromCode`: read
`ast.comments` (an empty list when not an array), short-circuit when
there are no comments, otherwise normalise the ranges, erase them and
assemble the `StripResult`. -/
def stripFromAst (code : List Char) (ast : Ast) : StripResult :=
  let comments := ast.comments.getD []
  if comments.isEmpty then
    ⟨code, 0, 0, []⟩
  else
    let ranges := commentRanges comments
    let er := removeRanges code ranges
    ⟨er.output, ranges.length, er.removed, ranges⟩

/-- `stripCommentsFromCode(code, parserOptions)` from `src/index.js`,
parameterised by the external parser. -/
def stripCommentsFromCode (parse : ParseFn) (code : JSValue)
    (opts : StripOptions) : Except StripError StripResult :=
  match code with
  | .nonString _ => .error (.typeError "Code must be a string.")
  | .str code =>
      let filename := opts.filename.getD "unknown"
      match attemptParse parse code (stripPluginSets opts) none with
      | .error lastError =>
          .error (.parseFailure (failMessage filename lastError))
      | .ok ast => .ok (stripFromAst code ast)

/-- Sum of `(end - start)` over a list of ranges. -/
def totalSpan (ranges : List Range) : Int :=
  (ranges.map fun r => r.stop - r.start).sum

/-- The ranges the eraser actually excises, computed by replaying the
cursor rule of `removeRanges`: a range is excised exactly when its
start is not before the cursor, and excising moves the cursor to its
end. -/
def excisedRanges (cursor : Int) : List Range → List Range
  | [] => []
  | r :: rest =>
      if r.start < cursor then excisedRanges cursor rest
      else r :: excisedRanges r.stop rest

/-- The eraser pass as the specification describes it, without the
accumulators: the output is the concatenation of the kept slices
`sourceText[cursor:range.start]` followed by the tail
`sourceText[cursor:]`, and the removed total is the sum of the spans of
the excised ranges. -/
def eraseGo (source : List Char) (cursor : Int) :
    List Range → List Char × Int
  | [] => (jsSliceFrom source cursor, 0)
  | r :: rest =>
      if r.start < cursor then eraseGo source cursor rest
      else
        let p := eraseGo source r.stop rest
        (jsSlice source cursor r.start ++ p.1, (r.stop - r.start) + p.2)

/-! Concrete inputs and parser behaviours, used to evaluate the theorems
below on closed data. -/

/-- A six-character source text. -/
def exCode : List Char := ['a', 'b', 'c', 'd', 'e', 'f']

/-- A parse result with an empty comment list. -/
def astNoComments : Ast := ⟨some []⟩

/-- A parser that always succeeds and reports no comments. -/
def parseNoComments : ParseFn := fun _ _ => .ok astNoComments

/-- A parse result with two overlapping comment ranges, listed out of
order. -/
def astOverlap : Ast := ⟨some [⟨some 2, some 6⟩, ⟨some 0, some 4⟩]⟩

/-- A parser that always succeeds with two overlapping comments. -/
def parseOverlap : ParseFn := fun _ _ => .ok astOverlap

/-- A parse result with one comment range `[2, 4)`. -/
def astOne : Ast := ⟨some [⟨some 2, some 4⟩]⟩

/-- A parser that always succeeds with one comment. -/
def parseOne : ParseFn := fun _ _ => .ok astOne

/-- A parser that always fails. -/
def parseFails : ParseFn := fun _ _ => .error ⟨"Unexpected token (1:0)"⟩

/-- A parser that rejects exactly those attempts whose plugin list
carries the `typescript` plugin (so the first default plugin set fails
and the second one succeeds). -/
def parseNoTypescript : ParseFn := fun _ opts =>
  if Plugin.plain "typescript" ∈ opts.plugins then
    .error ⟨"typescript rejected"⟩
  else
    .ok astNoComments

/-- A parser that sees one comment in the original six-character text
and none in any other text (so a second stripping pass finds
nothing). -/
def parseOnce : ParseFn := fun code _ =>
  if code = exCode then .ok astOne else .ok astNoComments

theorem removeRangesLoop_eq_eraseGo (source : List Char) :
    ∀ (ranges : List Range) (cursor removed : Int) (output : List Char),
      removeRangesLoop source ranges cursor removed output =
        (output ++ (eraseGo source cursor ranges).1,
         removed + (eraseGo source cursor ranges).2) := by
  intro ranges
  induction ranges with
  | nil => intro cursor removed output; simp [removeRangesLoop, eraseGo]
  | cons r rest ih =>
      intro cursor removed output
      by_cases h : r.start < cursor
      · simp [removeRangesLoop, eraseGo, h, ih]
      · simp [removeRangesLoop, eraseGo, h, ih, List.append_assoc]
        ring

theorem removeRanges_eq_eraseGo (source : List Char) (ranges : List Range) :
    removeRanges source ranges =
      ⟨(eraseGo source 0 ranges).1, (eraseGo source 0 ranges).2⟩ := by
  simp [removeRanges, removeRangesLoop_eq_eraseGo]

theorem jsIndex_of_nonneg (len i : Int) (h : 0 ≤ i) :
    jsIndex len i = min i len := by
  simp [jsIndex, not_lt.mpr h]

theorem jsSliceFrom_eq_drop (s : List Char) (a : Int) (h : 0 ≤ a) :
    jsSliceFrom s a = s.drop a.toNat := by
  unfold jsSliceFrom
  rw [jsIndex_of_nonneg _ _ h]
  rcases le_or_lt a (s.length : Int) with hle | hlt
  · rw [min_eq_left hle]
  · rw [min_eq_right hlt.le]
    rw [List.drop_eq_nil_of_le (by simp), List.drop_eq_nil_of_le (by omega)]

theorem jsSlice_eq_of_bounds (s : List Char) (a b : Int)
    (ha : 0 ≤ a) (hab : a ≤ b) (hb : b ≤ (s.length : Int)) :
    jsSlice s a b = (s.drop a.toNat).take (b - a).toNat := by
  unfold jsSlice
  rw [jsIndex_of_nonneg _ _ ha, jsIndex_of_nonneg _ _ (le_trans ha hab),
    min_eq_left (le_trans hab hb), min_eq_left hb]

theorem length_jsSlice (s : List Char) (a b : Int)
    (ha : 0 ≤ a) (hab : a ≤ b) (hb : b ≤ (s.length : Int)) :
    ((jsSlice s a b).length : Int) = b - a := by
  rw [jsSlice_eq_of_bounds s a b ha hab hb]
  simp [List.length_take, List.length_drop]
  omega

theorem eraseGo_length (s : List Char) :
    ∀ (ranges : List Range) (cursor : Int), 0 ≤ cursor →
      cursor ≤ (s.length : Int) →
      (∀ r ∈ ranges, r.start < r.stop ∧ r.stop ≤ (s.length : Int)) →
      ((eraseGo s cursor ranges).1.length : Int) +
        (eraseGo s cursor ranges).2 = (s.length : Int) - cursor := by
  intro ranges
  induction ranges with
  | nil =>
      intro cursor h0 hlen _
      rw [eraseGo, jsSliceFrom_eq_drop s cursor h0]
      simp [List.length_drop]
      omega
  | cons r rest ih =>
      intro cursor h0 hlen hr
      obtain ⟨⟨hlt, hle⟩, hrest⟩ := List.forall_mem_cons.mp hr
      by_cases h : r.start < cursor
      · rw [eraseGo, if_pos h]
        exact ih cursor h0 hlen hrest
      · rw [eraseGo, if_neg h]
        push_neg at h
        have hstart : r.start ≤ (s.length : Int) := le_trans hlt.le hle
        have ihr := ih r.stop (by omega) hle hrest
        simp only [List.length_append]
        have hslice := length_jsSlice s cursor r.start h0 h hstart
        push_cast
        push_cast at ihr hslice
        omega

theorem eraseGo_removed_eq_excised (s : List Char) :
    ∀ (ranges : List Range) (cursor : Int),
      (eraseGo s cursor ranges).2 = totalSpan (excisedRanges cursor ranges) := by
  intro ranges
  induction ranges with
  | nil => intro cursor; simp [eraseGo, excisedRanges, totalSpan]
  | cons r rest ih =>
      intro cursor
      by_cases h : r.start < cursor
      · simp [eraseGo, excisedRanges, h, ih]
      · simp [eraseGo, excisedRanges, h, ih, totalSpan]

theorem eraseGo_excised_eq (s : List Char) :
    ∀ (ranges : List Range) (cursor : Int),
      eraseGo s cursor (excisedRanges cursor ranges) =
        eraseGo s cursor ranges := by
  intro ranges
  induction ranges with
  | nil => intro cursor; simp [excisedRanges]
  | cons r rest ih =>
      intro cursor
      by_cases h : r.start < cursor
      · simp only [excisedRanges, if_pos h, eraseGo, ih]
      · simp only [excisedRanges, if_neg h, eraseGo, ih]

theorem eraseGo_removed_le (s : List Char) :
    ∀ (ranges : List Range) (cursor : Int),
      (∀ r ∈ ranges, r.start < r.stop) →
      (eraseGo s cursor ranges).2 ≤ totalSpan ranges := by
  intro ranges
  induction ranges with
  | nil => intro cursor _; simp [eraseGo, totalSpan]
  | cons r rest ih =>
      intro cursor hr
      obtain ⟨hlt, hrest⟩ := List.forall_mem_cons.mp hr
      by_cases h : r.start < cursor
      · rw [eraseGo, if_pos h]
        calc (eraseGo s cursor rest).2 ≤ totalSpan rest := ih cursor hrest
          _ ≤ totalSpan (r :: rest) := by simp [totalSpan]; omega
      · rw [eraseGo, if_neg h]
        have := ih r.stop hrest
        simp only [totalSpan, List.map_cons, List.sum_cons]
        simp only [totalSpan] at this
        omega

theorem eraseGo_removed_of_disjoint (s : List Char) :
    ∀ (ranges : List Range) (cursor : Int),
      (∀ r ∈ ranges, cursor ≤ r.start) →
      List.Pairwise (fun a b => a.stop ≤ b.start) ranges →
      (eraseGo s cursor ranges).2 = totalSpan ranges := by
  intro ranges
  induction ranges with
  | nil => intro cursor _ _; simp [eraseGo, totalSpan]
  | cons r rest ih =>
      intro cursor hc hp
      obtain ⟨hle, hrest⟩ := List.forall_mem_cons.mp hc
      rw [List.pairwise_cons] at hp
      rw [eraseGo, if_neg (not_lt.mpr hle)]
      have := ih r.stop hp.1 hp.2
      simp only [totalSpan, List.map_cons, List.sum_cons]
      simp only [totalSpan] at this
      omega

theorem sublist_take_append {α : Type} (l t : List α) (k m : Nat)
    (hkm : k ≤ m) (ht : List.Sublist t (l.drop m)) :
    List.Sublist (l.take k ++ t) l := by
  have h1 : List.Sublist t ((l.drop k).drop (m - k)) := by
    rw [List.drop_drop]
    have : k + (m - k) = m := by omega
    rwa [this]
  have h2 : List.Sublist t (l.drop k) := h1.trans (List.drop_sublist _ _)
  have h3 : List.Sublist (l.take k ++ t) (l.take k ++ l.drop k) :=
    List.Sublist.append (List.Sublist.refl _) h2
  rwa [List.take_append_drop k l] at h3

theorem eraseGo_sublist (s : List Char) :
    ∀ (ranges : List Range) (cursor : Int), 0 ≤ cursor →
      (∀ r ∈ ranges, r.start < r.stop) →
      List.Sublist (eraseGo s cursor ranges).1 (s.drop cursor.toNat) := by
  intro ranges
  induction ranges with
  | nil =>
      intro cursor h0 _
      rw [eraseGo, jsSliceFrom_eq_drop s cursor h0]
  | cons r rest ih =>
      intro cursor h0 hr
      obtain ⟨hlt, hrest⟩ := List.forall_mem_cons.mp hr
      by_cases h : r.start < cursor
      · rw [eraseGo, if_pos h]
        exact ih cursor h0 hrest
      · rw [eraseGo, if_neg h]
        push_neg at h
        have hstop : (0 : Int) ≤ r.stop := by omega
        have iht := ih r.stop hstop hrest
        simp only
        have hslice : jsSlice s cursor r.start =
            (s.drop cursor.toNat).take
              ((jsIndex s.length r.start) - (jsIndex s.length cursor)).toNat := by
          unfold jsSlice
          congr 1
          rw [jsIndex_of_nonneg _ _ h0]
          rcases le_or_lt cursor (s.length : Int) with hle | hgt
          · rw [min_eq_left hle]
          · rw [min_eq_right hgt.le]
            rw [List.drop_eq_nil_of_le (by simp),
              List.drop_eq_nil_of_le (by omega)]
        rw [hslice]
        apply sublist_take_append _ _ _ (r.stop.toNat - cursor.toNat)
        · rw [jsIndex_of_nonneg _ _ h0, jsIndex_of_nonneg _ _ (le_trans h0 h)]
          omega
        · rw [List.drop_drop]
          have : cursor.toNat + (r.stop.toNat - cursor.toNat) = r.stop.toNat := by
            omega
          rw [this]
          exact iht

theorem jsIndex_zero (len : Int) (h : 0 ≤ len) : jsIndex len 0 = 0 := by
  simp [jsIndex]
  omega

theorem removeRanges_nil (code : List Char) :
    removeRanges code [] = ⟨code, 0⟩ := by
  simp [removeRanges, removeRangesLoop, jsSliceFrom,
    jsIndex_zero (code.length : Int) (by omega)]

theorem commentRanges_nil : commentRanges [] = [] := by
  simp [commentRanges]

theorem stripFromAst_eq (code : List Char) (ast : Ast) :
    stripFromAst code ast =
      ⟨(removeRanges code (commentRanges (ast.comments.getD []))).output,
       (commentRanges (ast.comments.getD [])).length,
       (removeRanges code (commentRanges (ast.comments.getD []))).removed,
       commentRanges (ast.comments.getD [])⟩ := by
  cases hc : ast.comments.getD [] with
  | nil => simp [stripFromAst, hc, commentRanges_nil, removeRanges_nil]
  | cons c cs => simp [stripFromAst, hc]

theorem strip_str_eq (parse : ParseFn) (code : List Char) (opts : StripOptions) :
    stripCommentsFromCode parse (.str code) opts =
      match attemptParse parse code (stripPluginSets opts) none with
      | .error lastError =>
          .error (.parseFailure (failMessage (opts.filename.getD "unknown") lastError))
      | .ok ast => .ok (stripFromAst code ast) := rfl

theorem strip_ok_iff (parse : ParseFn) (code : List Char) (opts : StripOptions)
    (res : StripResult) :
    stripCommentsFromCode parse (.str code) opts = .ok res ↔
      ∃ ast, attemptParse parse code (stripPluginSets opts) none = .ok ast ∧
        res = stripFromAst code ast := by
  rw [strip_str_eq]
  cases h : attemptParse parse code (stripPluginSets opts) none with
  | ok ast => simp [eq_comm]
  | error lastError => simp

theorem strip_error_iff (parse : ParseFn) (code : List Char) (opts : StripOptions)
    (e : StripError) :
    stripCommentsFromCode parse (.str code) opts = .error e ↔
      ∃ lastError, attemptParse parse code (stripPluginSets opts) none = .error lastError ∧
        e = .parseFailure (failMessage (opts.filename.getD "unknown") lastError) := by
  rw [strip_str_eq]
  cases h : attemptParse parse code (stripPluginSets opts) none with
  | ok ast => simp
  | error lastError => simp [eq_comm]

theorem mem_commentRanges (cs : List RawComment) (r : Range) :
    r ∈ commentRanges cs ↔ r ∈ cs.filterMap toCheckedRange := by
  simp [commentRanges]

theorem commentRanges_start_lt_stop (cs : List RawComment) :
    ∀ r ∈ commentRanges cs, r.start < r.stop := by
  intro r hr
  rw [mem_commentRanges] at hr
  obtain ⟨c, _, hsome⟩ := List.mem_filterMap.mp hr
  rcases c with ⟨cstart, cstop⟩
  cases cstart with
  | none => simp [toCheckedRange] at hsome
  | some s =>
      cases cstop with
      | none => simp [toCheckedRange] at hsome
      | some e =>
          by_cases hlt : s < e
          · simp [toCheckedRange, hlt] at hsome
            rw [← hsome]
            exact hlt
          · simp [toCheckedRange, hlt] at hsome

theorem commentRanges_sorted (cs : List RawComment) :
    List.Pairwise (fun a b : Range => a.start ≤ b.start) (commentRanges cs) := by
  have h := @List.sorted_mergeSort Range (fun a b => a.start ≤ b.start)
      (by intro a b c h1 h2; simp at h1 h2 ⊢; omega)
      (by intro a b; simp; omega)
      (cs.filterMap toCheckedRange)
  exact h.imp (by intro a b hb; simpa using hb)

theorem length_filterMap_of_isSome {α β : Type} (f : α → Option β) :
    ∀ l : List α, (∀ a ∈ l, (f a).isSome) → (l.filterMap f).length = l.length := by
  intro l
  induction l with
  | nil => intro _; simp
  | cons a l ih =>
      intro h
      obtain ⟨ha, hl⟩ := List.forall_mem_cons.mp h
      obtain ⟨b, hb⟩ := Option.isSome_iff_exists.mp ha
      rw [List.filterMap_cons_some hb, List.length_cons, List.length_cons, ih hl]

theorem commentRanges_length (cs : List RawComment)
    (h : ∀ c ∈ cs, ∃ s e, c.start = some s ∧ c.stop = some e ∧ s < e) :
    (commentRanges cs).length = cs.length := by
  rw [commentRanges, List.length_mergeSort]
  apply length_filterMap_of_isSome
  intro c hc
  obtain ⟨s, e, hs, he, hlt⟩ := h c hc
  simp [toCheckedRange, hs, he, hlt]

theorem attemptParse_all_fail (parse : ParseFn) (code : List Char) :
    ∀ (sets : List (List Plugin)) (psLast : List Plugin) (eLast : ParseErr)
      (acc : Option String),
      sets.getLast? = some psLast →
      parse code (mkParseOptions psLast) = .error eLast →
      (∀ ps ∈ sets, ∃ e, parse code (mkParseOptions ps) = .error e) →
      attemptParse parse code sets acc = .error (some eLast.message) := by
  intro sets
  induction sets with
  | nil => intro psLast eLast acc hlast _ _; simp at hlast
  | cons ps rest ih =>
      intro psLast eLast acc hlast helast hfail
      obtain ⟨e, he⟩ := hfail ps (List.mem_cons_self ps rest)
      cases rest with
      | nil =>
          simp [List.getLast?] at hlast
          subst hlast
          rw [helast] at he
          injection he with he
          subst he
          simp [attemptParse, helast]
      | cons q rest' =>
          rw [List.getLast?_cons_cons] at hlast
          simp only [attemptParse, he]
          exact ih psLast eLast (some e.message) hlast helast
            (fun p hp => hfail p (List.mem_cons_of_mem ps hp))

theorem attemptParse_first_success (parse : ParseFn) (code : List Char)
    (ps : List Plugin) (post : List (List Plugin)) (ast : Ast)
    (hok : parse code (mkParseOptions ps) = .ok ast) :
    ∀ (pre : List (List Plugin)) (acc : Option String),
      (∀ q ∈ pre, ∃ e, parse code (mkParseOptions q) = .error e) →
      attemptParse parse code (pre ++ ps :: post) acc = .ok ast := by
  intro pre
  induction pre with
  | nil =>
      intro acc _
      rw [List.nil_append]
      simp [attemptParse, hok]
  | cons q pre ih =>
      intro acc hfail
      obtain ⟨e, he⟩ := hfail q (List.mem_cons_self q pre)
      rw [List.cons_append]
      simp only [attemptParse, he]
      exact ih (some e.message) (fun p hp => hfail p (List.mem_cons_of_mem q hp))

/-- C1 (length law): for every source text and every successful
`stripCommentsFromCode` call whose reported ranges lie within the text
(which the parser guarantees for real comment tokens), the length of
the returned text plus the reported `removedChars` equals the length of
the input text exactly. -/
theorem C1_length_law (parse : ParseFn) (code : List Char) (opts : StripOptions)
    (res : StripResult)
    (hok : stripCommentsFromCode parse (.str code) opts = .ok res)
    (hbound : ∀ r ∈ res.removedRanges, r.stop ≤ (code.length : Int)) :
    (res.code.length : Int) + res.removedChars = (code.length : Int) := by
  obtain ⟨ast, _, hres⟩ := (strip_ok_iff parse code opts res).mp hok
  subst hres
  rw [stripFromAst_eq] at hbound ⊢
  rw [removeRanges_eq_eraseGo]
  have hwf : ∀ r ∈ commentRanges (ast.comments.getD []),
      r.start < r.stop ∧ r.stop ≤ (code.length : Int) := fun r hr =>
    ⟨commentRanges_start_lt_stop _ r hr, hbound r hr⟩
  have h := eraseGo_length code (commentRanges (ast.comments.getD [])) 0
    le_rfl (by omega) hwf
  simpa using h

unseal List.merge List.mergeSort in
/-- Witness for C1 at a concrete parser and input: stripping the
six-character text with one comment range `[2, 4)` returns four
characters with `removedChars = 2`, and `4 + 2 = 6`. -/
theorem C1_length_law_witness :
    stripCommentsFromCode parseOne (.str exCode) ⟨none, none⟩ =
      .ok ⟨['a', 'b', 'e', 'f'], 1, 2, [⟨2, 4⟩]⟩ ∧
    ((['a', 'b', 'e', 'f'].length : Int) + 2 = (exCode.length : Int)) :=
  ⟨by decide,
   C1_length_law parseOne exCode ⟨none, none⟩
     ⟨['a', 'b', 'e', 'f'], 1, 2, [⟨2, 4⟩]⟩ (by decide) (by decide)⟩

/-- C2 (span eraser pass): for every source text and every list of
ranges sorted ascending by start with `start < end`, the removed total
equals the sum of `end - start` over the ranges the cursor pass
actually excises, the skipped ranges contribute nothing (erasing just
the excised ranges gives the identical result), and the output never
duplicates content (it is a sublist of the source text). -/
theorem C2_span_eraser (source : List Char) (ranges : List Range)
    (_hsorted : List.Pairwise (fun a b : Range => a.start ≤ b.start) ranges)
    (hlt : ∀ r ∈ ranges, r.start < r.stop) :
    (removeRanges source ranges).removed = totalSpan (excisedRanges 0 ranges) ∧
    removeRanges source ranges = removeRanges source (excisedRanges 0 ranges) ∧
    List.Sublist (removeRanges source ranges).output source := by
  refine ⟨?_, ?_, ?_⟩
  · rw [removeRanges_eq_eraseGo]
    exact eraseGo_removed_eq_excised source ranges 0
  · rw [removeRanges_eq_eraseGo, removeRanges_eq_eraseGo, eraseGo_excised_eq]
  · rw [removeRanges_eq_eraseGo]
    have h := eraseGo_sublist source ranges 0 le_rfl hlt
    simpa using h

/-- Witness for C2 at a concrete source and two overlapping ranges:
the second range is skipped, `removed = 4` counts only the excised
range, and the output is a sublist of the source. -/
theorem C2_span_eraser_witness :
    (removeRanges exCode [⟨0, 4⟩, ⟨2, 6⟩]).removed =
      totalSpan (excisedRanges 0 [⟨0, 4⟩, ⟨2, 6⟩]) ∧
    removeRanges exCode [⟨0, 4⟩, ⟨2, 6⟩] =
      removeRanges exCode (excisedRanges 0 [⟨0, 4⟩, ⟨2, 6⟩]) ∧
    List.Sublist (removeRanges exCode [⟨0, 4⟩, ⟨2, 6⟩]).output exCode :=
  C2_span_eraser exCode [⟨0, 4⟩, ⟨2, 6⟩] (by decide) (by decide)

/-- C3 (zero-comment short-circuit): whenever the dialect resolver
succeeds with zero comments, `stripCommentsFromCode` returns the input
text itself with `commentCount = 0`, `removedChars = 0` and
`removedRanges = []`. -/
theorem C3_zero_comment_short_circuit (parse : ParseFn) (code : List Char)
    (opts : StripOptions) (ast : Ast)
    (hast : attemptParse parse code (stripPluginSets opts) none = .ok ast)
    (hnone : ast.comments.getD [] = []) :
    stripCommentsFromCode parse (.str code) opts = .ok ⟨code, 0, 0, []⟩ := by
  rw [strip_str_eq, hast]
  simp [stripFromAst, hnone]

/-- Witness for C3: a parser reporting no comments leaves the concrete
input untouched with all counters zero. -/
theorem C3_zero_comment_short_circuit_witness :
    stripCommentsFromCode parseNoComments (.str exCode) ⟨none, none⟩ =
      .ok ⟨exCode, 0, 0, []⟩ :=
  C3_zero_comment_short_circuit parseNoComments exCode ⟨none, none⟩
    astNoComments rfl rfl

/-- C4 (reported commentCount convention): on every successful call the
reported `commentCount` equals the number of comment tokens the parser
found (equivalently the number of ranges fed to the eraser, i.e.
`removedRanges.length`), independent of how many ranges the eraser
actually excises. -/
theorem C4_commentCount_convention (parse : ParseFn) (code : List Char)
    (opts : StripOptions) (ast : Ast) (res : StripResult)
    (hast : attemptParse parse code (stripPluginSets opts) none = .ok ast)
    (hok : stripCommentsFromCode parse (.str code) opts = .ok res)
    (hwf : ∀ c ∈ ast.comments.getD [],
      ∃ s e, c.start = some s ∧ c.stop = some e ∧ s < e) :
    res.commentCount = (ast.comments.getD []).length ∧
    res.commentCount = res.removedRanges.length := by
  obtain ⟨ast2, hast2, hres⟩ := (strip_ok_iff parse code opts res).mp hok
  rw [hast] at hast2
  injection hast2 with hast2
  subst hast2
  subst hres
  rw [stripFromAst_eq]
  exact ⟨commentRanges_length _ hwf, rfl⟩

unseal List.merge List.mergeSort in
/-- Witness for C4: with two overlapping comment tokens the reported
count is 2 (the pre-eraser count) even though only one range is
excised. -/
theorem C4_commentCount_convention_witness :
    ((⟨['e', 'f'], 2, 4, [⟨0, 4⟩, ⟨2, 6⟩]⟩ : StripResult).commentCount =
        (astOverlap.comments.getD []).length ∧
     (⟨['e', 'f'], 2, 4, [⟨0, 4⟩, ⟨2, 6⟩]⟩ : StripResult).commentCount =
        (⟨['e', 'f'], 2, 4, [⟨0, 4⟩, ⟨2, 6⟩]⟩ : StripResult).removedRanges.length) ∧
    (excisedRanges 0 [⟨0, 4⟩, ⟨2, 6⟩]).length = 1 :=
  ⟨C4_commentCount_convention parseOverlap exCode ⟨none, none⟩ astOverlap
      ⟨['e', 'f'], 2, 4, [⟨0, 4⟩, ⟨2, 6⟩]⟩ rfl (by decide)
      (by
        intro c hc
        simp [astOverlap] at hc
        rcases hc with h | h
        · subst h; exact ⟨2, 6, rfl, rfl, by omega⟩
        · subst h; exact ⟨0, 4, rfl, rfl, by omega⟩),
   by decide⟩

/-- C5 (exhaustion failure): when every dialect attempt fails, the call
fails with the parse-failure error whose message is exactly
`Failed to parse <filename>: <message of the last attempted dialect>`,
discarding the messages of all earlier attempts. -/
theorem C5_exhaustion_failure (parse : ParseFn) (code : List Char)
    (opts : StripOptions) (psLast : List Plugin) (eLast : ParseErr)
    (hlast : (stripPluginSets opts).getLast? = some psLast)
    (helast : parse code (mkParseOptions psLast) = .error eLast)
    (hfail : ∀ ps ∈ stripPluginSets opts,
      ∃ e, parse code (mkParseOptions ps) = .error e) :
    stripCommentsFromCode parse (.str code) opts =
      .error (.parseFailure
        ("Failed to parse " ++ (opts.filename.getD "unknown") ++ ": " ++
          eLast.message)) := by
  rw [strip_str_eq,
    attemptParse_all_fail parse code (stripPluginSets opts) psLast eLast none
      hlast helast hfail]
  simp [failMessage]

/-- Witness for C5: a parser failing on all nine default plugin sets
surfaces the last attempt's message behind the filename. -/
theorem C5_exhaustion_failure_witness :
    stripCommentsFromCode parseFails (.str exCode) ⟨some "f.ts", none⟩ =
      .error (.parseFailure
        ("Failed to parse " ++ "f.ts" ++ ": " ++ "Unexpected token (1:0)")) :=
  C5_exhaustion_failure parseFails exCode ⟨some "f.ts", none⟩
    COMMON_PLUGINS ⟨"Unexpected token (1:0)"⟩ (by decide) rfl
    (fun ps _ => ⟨⟨"Unexpected token (1:0)"⟩, rfl⟩)

/-- C6 (default dialect search order): with no explicit dialect the
default search order is exactly the nine plugin sets of the spec — for
each decorator convention (modern attribute-style `decorators` with
`decoratorsBeforeExport`, then `decorators-legacy`) the four language
combinations (`jsx`+`typescript`; `jsx`+`flow`+`flowComments`; `jsx`;
none), each extended with the common plugin set, then the common set
alone — and `stripCommentsFromCode` uses the first set that parses. -/
theorem C6_default_dialect_order :
    DEFAULT_PLUGIN_SETS =
      [[.plain "jsx", .plain "typescript", .withOptions "decorators" true] ++
         COMMON_PLUGINS,
       [.plain "jsx", .plain "flow", .plain "flowComments",
         .withOptions "decorators" true] ++ COMMON_PLUGINS,
       [.plain "jsx", .withOptions "decorators" true] ++ COMMON_PLUGINS,
       [.withOptions "decorators" true] ++ COMMON_PLUGINS,
       [.plain "jsx", .plain "typescript", .plain "decorators-legacy"] ++
         COMMON_PLUGINS,
       [.plain "jsx", .plain "flow", .plain "flowComments",
         .plain "decorators-legacy"] ++ COMMON_PLUGINS,
       [.plain "jsx", .plain "decorators-legacy"] ++ COMMON_PLUGINS,
       [.plain "decorators-legacy"] ++ COMMON_PLUGINS,
       COMMON_PLUGINS] ∧
    ∀ (parse : ParseFn) (code : List Char) (fname : Option String)
      (pre post : List (List Plugin)) (ps : List Plugin) (ast : Ast),
      DEFAULT_PLUGIN_SETS = pre ++ ps :: post →
      (∀ q ∈ pre, ∃ e, parse code (mkParseOptions q) = .error e) →
      parse code (mkParseOptions ps) = .ok ast →
      stripCommentsFromCode parse (.str code) ⟨fname, none⟩ =
        .ok (stripFromAst code ast) := by
  constructor
  · rfl
  · intro parse code fname pre post ps ast hsets hpre hok
    rw [strip_str_eq,
      show stripPluginSets ⟨fname, none⟩ = pre ++ ps :: post from hsets,
      attemptParse_first_success parse code ps post ast hok pre none hpre]

/-- Witness for C6: a parser that rejects the `typescript` plugin fails
on the first default set and succeeds on the second (the flow set), and
`stripCommentsFromCode` returns that second attempt's result. -/
theorem C6_default_dialect_order_witness :
    stripCommentsFromCode parseNoTypescript (.str exCode) ⟨none, none⟩ =
      .ok (stripFromAst exCode astNoComments) :=
  C6_default_dialect_order.2 parseNoTypescript exCode none
    [[.plain "jsx", .plain "typescript", .withOptions "decorators" true] ++
       COMMON_PLUGINS]
    [[.plain "jsx", .withOptions "decorators" true] ++ COMMON_PLUGINS,
     [.withOptions "decorators" true] ++ COMMON_PLUGINS,
     [.plain "jsx", .plain "typescript", .plain "decorators-legacy"] ++
       COMMON_PLUGINS,
     [.plain "jsx", .plain "flow", .plain "flowComments",
       .plain "decorators-legacy"] ++ COMMON_PLUGINS,
     [.plain "jsx", .plain "decorators-legacy"] ++ COMMON_PLUGINS,
     [.plain "decorators-legacy"] ++ COMMON_PLUGINS,
     COMMON_PLUGINS]
    ([.plain "jsx", .plain "flow", .plain "flowComments",
       .withOptions "decorators" true] ++ COMMON_PLUGINS)
    astNoComments (by decide)
    (by
      intro q hq
      simp at hq
      subst hq
      exact ⟨⟨"typescript rejected"⟩, by decide⟩)
    (by decide)

/-- C7 (idempotence): if a text parses and the stripped output contains
no comments on the second pass, stripping it again finds zero comments
and leaves the text unchanged. -/
theorem C7_idempotence (parse : ParseFn) (x : List Char) (opts : StripOptions)
    (r1 : StripResult) (ast2 : Ast)
    (_h1 : stripCommentsFromCode parse (.str x) opts = .ok r1)
    (h2 : attemptParse parse r1.code (stripPluginSets opts) none = .ok ast2)
    (hno : ast2.comments.getD [] = []) :
    stripCommentsFromCode parse (.str r1.code) opts = .ok ⟨r1.code, 0, 0, []⟩ := by
  rw [strip_str_eq, h2]
  simp [stripFromAst, hno]

unseal List.merge List.mergeSort in
/-- Witness for C7: the one-comment text strips to four characters, and
stripping those four characters again changes nothing. -/
theorem C7_idempotence_witness :
    stripCommentsFromCode parseOnce (.str ['a', 'b', 'e', 'f']) ⟨none, none⟩ =
      .ok ⟨['a', 'b', 'e', 'f'], 0, 0, []⟩ :=
  C7_idempotence parseOnce exCode ⟨none, none⟩
    ⟨['a', 'b', 'e', 'f'], 1, 2, [⟨2, 4⟩]⟩ astNoComments (by decide) (by decide)
    rfl

/-- C8 (input type check): a non-string `code` value fails immediately
with the `TypeError`-class error, for every parser, input and options —
in particular before any parse attempt can be consulted. -/
theorem C8_input_type_check (parse : ParseFn) (tag : String)
    (opts : StripOptions) :
    stripCommentsFromCode parse (.nonString tag) opts =
      .error (.typeError "Code must be a string.") := rfl

/-- C9 (filename noninterference): the `filename` option never changes
whether stripping succeeds nor any field of a successful result; it
only appears inside the diagnostic message of a parse-failure error,
whose underlying last parser message is the same for both filenames. -/
theorem C9_filename_noninterference (parse : ParseFn) (code : List Char)
    (plugins : Option (List Plugin)) (f1 f2 : Option String) :
    (∀ res : StripResult,
      stripCommentsFromCode parse (.str code) ⟨f1, plugins⟩ = .ok res ↔
      stripCommentsFromCode parse (.str code) ⟨f2, plugins⟩ = .ok res) ∧
    (∀ e1 : StripError,
      stripCommentsFromCode parse (.str code) ⟨f1, plugins⟩ = .error e1 →
      ∃ lastError : Option String,
        e1 = .parseFailure (failMessage (f1.getD "unknown") lastError) ∧
        stripCommentsFromCode parse (.str code) ⟨f2, plugins⟩ =
          .error (.parseFailure (failMessage (f2.getD "unknown") lastError))) := by
  constructor
  · intro res
    rw [strip_ok_iff, strip_ok_iff]
    exact Iff.rfl
  · intro e1 h
    rw [strip_error_iff] at h
    obtain ⟨lastError, hl, he⟩ := h
    refine ⟨lastError, he, ?_⟩
    rw [strip_error_iff]
    exact ⟨lastError, hl, rfl⟩

/-- Witness for C9: two different filenames give the same successful
result on a concrete input. -/
theorem C9_filename_noninterference_witness :
    (stripCommentsFromCode parseNoComments (.str exCode) ⟨some "a.ts", none⟩ =
        .ok ⟨exCode, 0, 0, []⟩ ↔
      stripCommentsFromCode parseNoComments (.str exCode) ⟨some "b.ts", none⟩ =
        .ok ⟨exCode, 0, 0, []⟩) :=
  (C9_filename_noninterference parseNoComments exCode none
    (some "a.ts") (some "b.ts")).1 ⟨exCode, 0, 0, []⟩

/-- C10 (StripResult field invariant): every successful result has
`commentCount = removedRanges.length`, `removedRanges` sorted ascending
by start with `start < end` in every entry, and `removedChars` at most
the total span of `removedRanges`, with equality when the ranges are
pairwise non-overlapping (all such ranges the parser produces have
non-negative starts). -/
theorem C10_strip_result_invariant (parse : ParseFn) (code : List Char)
    (opts : StripOptions) (res : StripResult)
    (hok : stripCommentsFromCode parse (.str code) opts = .ok res) :
    res.commentCount = res.removedRanges.length ∧
    List.Pairwise (fun a b : Range => a.start ≤ b.start) res.removedRanges ∧
    (∀ r ∈ res.removedRanges, r.start < r.stop) ∧
    res.removedChars ≤ totalSpan res.removedRanges ∧
    ((∀ r ∈ res.removedRanges, 0 ≤ r.start) →
      List.Pairwise (fun a b : Range => a.stop ≤ b.start) res.removedRanges →
      res.removedChars = totalSpan res.removedRanges) := by
  obtain ⟨ast, _, hres⟩ := (strip_ok_iff parse code opts res).mp hok
  subst hres
  rw [stripFromAst_eq]
  refine ⟨rfl, commentRanges_sorted _, commentRanges_start_lt_stop _, ?_, ?_⟩
  · show (removeRanges code (commentRanges (ast.comments.getD []))).removed ≤ _
    rw [removeRanges_eq_eraseGo]
    exact eraseGo_removed_le code _ 0 (commentRanges_start_lt_stop _)
  · intro h0 hdisj
    show (removeRanges code (commentRanges (ast.comments.getD []))).removed = _
    rw [removeRanges_eq_eraseGo]
    exact eraseGo_removed_of_disjoint code _ 0 h0 hdisj

unseal List.merge List.mergeSort in
/-- Witness for C10: the overlapping-comment result reports
`commentCount = 2` and carries both ranges, matching the invariant. -/
theorem C10_strip_result_invariant_witness :
    (⟨['e', 'f'], 2, 4, [⟨0, 4⟩, ⟨2, 6⟩]⟩ : StripResult).commentCount =
      (⟨['e', 'f'], 2, 4, [⟨0, 4⟩, ⟨2, 6⟩]⟩ : StripResult).removedRanges.length :=
  (C10_strip_result_invariant parseOverlap exCode ⟨none, none⟩
    ⟨['e', 'f'], 2, 4, [⟨0, 4⟩, ⟨2, 6⟩]⟩ (by decide)).1

end Decomment
